import Mathlib

/-!
Shallow embedding of the Mitiri chat relay (server.js socket handlers and the
relevant client-side send path from App.jsx).

The server keeps three global in-memory stores:
  users       : socket.id -> { username, room, id }
  messages    : bounded array of broadcast messages (cap 200, shift on overflow)
  typingUsers : socket.id -> username

JavaScript objects keyed by socket id are modelled as association lists with
JS object semantics: property write replaces in place when the key exists and
appends otherwise (preserving insertion order, as Object.values does).
Wall-clock time (Date.now) is passed to each event explicitly as a Nat tick.
-/

set_option autoImplicit false

namespace Mitiri

/-- JS object property read: first binding of the key, if any. -/
def alookup {α : Type} (l : List (String × α)) (k : String) : Option α :=
  (l.find? (fun p => p.1 = k)).map (·.2)

/-- JS object property write: replace in place if the key exists, else append. -/
def ainsert {α : Type} (l : List (String × α)) (k : String) (v : α) :
    List (String × α) :=
  if l.any (fun p => p.1 = k) then
    l.map (fun p => if p.1 = k then (k, v) else p)
  else l ++ [(k, v)]

/-- JS delete of a property. -/
def aerase {α : Type} (l : List (String × α)) (k : String) : List (String × α) :=
  l.filter (fun p => p.1 ≠ k)

/-- JS string-or-default, as in `x || d` on strings (empty string is falsy). -/
def jsOr (s d : String) : String := if s = "" then d else s

/-- The value stored in `users[socket.id] = { username, room, id: socket.id }`. -/
structure Participant where
  username : String
  room : String
  id : String
deriving DecidableEq

/-- The wire payload of a client emit; absent JS fields are `none`. -/
structure Payload where
  «to» : Option String
  text : Option String
  message : Option String
  image : Option String
deriving DecidableEq

/-- A stored broadcast message, as built by the send_message handler. -/
structure Message where
  id : Nat
  sender : String
  senderId : String
  room : String
  timestamp : Nat
  text : String
  image : String
  reactions : List (String × Nat)
  seenBy : List String
deriving DecidableEq

/-- The transient object built by the private_message handler (note: it carries
a `message` field, not `text`, and is never stored). -/
structure PrivMsg where
  id : Nat
  sender : String
  senderId : String
  message : Option String
  image : Option String
  isPrivate : Bool
  timestamp : Nat
deriving DecidableEq

/-- The three global stores of server.js. -/
structure ServerState where
  users : List (String × Participant)
  messages : List Message
  typingUsers : List (String × String)
deriving DecidableEq

def initState : ServerState := ⟨[], [], []⟩

/-- Inbound socket events, one constructor per server-side handler. -/
inductive InEvent where
  | userJoin (username room : String)
  | sendMessage (data : Payload)
  | privateMessage (data : Payload)
  | typing (isTyping : Bool)
  | messageReaction (messageId : Nat) (emoji : String)
  | messageSeen (messageId : Nat)
  | disconnect
deriving DecidableEq

/-- Outbound emissions, tagged with their audience: a room for io.to(room),
an optional socket id for socket.to(x) / socket.emit. -/
inductive OutEvent where
  | userList (room : String) (roomUsers : List Participant)
  | userJoined (room username sid : String)
  | receiveMessage (room : String) (msg : Message)
  | privateMessageOut (target : Option String) (msg : PrivMsg)
  | typingUsersOut (room : String) (names : List String)
  | messageSeenUpdate (room : String) (messageId : Nat) (seenBy : List String)
  | userLeft (room username : String)
deriving DecidableEq

/-- Object.values(users).filter(u => u.room === room). -/
def roomUsers (us : List (String × Participant)) (room : String) :
    List Participant :=
  (us.map (·.2)).filter (fun u => u.room = room)

/-- messages.find(m => m.id === messageId). -/
def findMsg (ms : List Message) (i : Nat) : Option Message :=
  ms.find? (fun m => m.id = i)

/-- In-place mutation of the first array element matching a predicate, the
effect of mutating the object returned by Array.prototype.find. -/
def updateFirst {α : Type} (p : α → Bool) (f : α → α) : List α → List α
  | [] => []
  | a :: l => if p a then f a :: l else a :: updateFirst p f l

/-- msg.reactions[emoji] = (msg.reactions[emoji] || 0) + 1. -/
def addReact (emoji : String) (m : Message) : Message :=
  { m with reactions :=
      (ainsert m.reactions emoji ((alookup m.reactions emoji).getD 0 + 1)) }

/-- msg.seenBy.push(name). -/
def pushSeen (name : String) (m : Message) : Message :=
  { m with seenBy := m.seenBy ++ [name] }

/-- The message object built by the send_message handler (id is Date.now()). -/
def mkSendMsg (sid : String) (now : Nat) (user : Participant)
    (data : Payload) : Message :=
  { id := now, sender := user.username, senderId := sid, room := user.room,
    timestamp := now, text := data.text.getD "", image := data.image.getD "",
    reactions := [], seenBy := [user.username] }

/-- The transient object built by the private_message handler. -/
def mkPrivMsg (sid : String) (now : Nat) (sender : Option Participant)
    (data : Payload) : PrivMsg :=
  { id := now,
    sender := (match sender with
               | none => "Anonymous"
               | some u => jsOr u.username "Anonymous"),
    senderId := sid, message := data.message, image := data.image,
    isPrivate := true, timestamp := now }

/-- One socket event processed by the server: the handlers of server.js,
translated case by case. Returns the new state and the emissions in order. -/
def step (sid : String) (now : Nat) (st : ServerState) (ev : InEvent) :
    ServerState × List OutEvent :=
  match ev with
  | .userJoin username room =>
      let users' := ainsert st.users sid ⟨username, room, sid⟩
      ({ st with users := users' },
       [.userList room (roomUsers users' room), .userJoined room username sid])
  | .sendMessage data =>
      match alookup st.users sid with
      | none => (st, [])
      | some user =>
          let msg := mkSendMsg sid now user data
          let ms := st.messages ++ [msg]
          let ms' := if ms.length > 200 then ms.tail else ms
          ({ st with messages := ms' }, [.receiveMessage user.room msg])
  | .privateMessage data =>
      let msg := mkPrivMsg sid now (alookup st.users sid) data
      (st, [.privateMessageOut data.«to» msg, .privateMessageOut (some sid) msg])
  | .typing isTyping =>
      match alookup st.users sid with
      | none => (st, [])
      | some user =>
          let tu := if isTyping then ainsert st.typingUsers sid user.username
                    else aerase st.typingUsers sid
          let names := (tu.filter (fun kv =>
              (alookup st.users kv.1).map (·.room) = some user.room)).map (·.2)
          ({ st with typingUsers := tu }, [.typingUsersOut user.room names])
  | .messageReaction messageId emoji =>
      match findMsg st.messages messageId with
      | none => (st, [])
      | some m =>
          ({ st with messages :=
              (updateFirst (fun x => x.id = messageId) (addReact emoji)
                st.messages) },
           [.receiveMessage m.room (addReact emoji m)])
  | .messageSeen messageId =>
      match alookup st.users sid, findMsg st.messages messageId with
      | some user, some m =>
          if user.username ∈ m.seenBy then (st, [])
          else
            ({ st with messages :=
                (updateFirst (fun x => x.id = messageId)
                  (pushSeen user.username) st.messages) },
             [.messageSeenUpdate m.room messageId
                (m.seenBy ++ [user.username])])
      | _, _ => (st, [])
  | .disconnect =>
      match alookup st.users sid with
      | none => (st, [])
      | some user =>
          let users' := aerase st.users sid
          ({ users := users', messages := st.messages,
             typingUsers := aerase st.typingUsers sid },
           [.userList user.room (roomUsers users' user.room),
            .userLeft user.room user.username])

/-- An inbound event together with its connection id and arrival tick. -/
structure Inbound where
  sid : String
  now : Nat
  ev : InEvent
deriving DecidableEq

/-- Process a sequence of inbound events, accumulating all emissions. -/
def runEvents (st : ServerState) : List Inbound → ServerState × List OutEvent
  | [] => (st, [])
  | x :: xs =>
      let r := step x.sid x.now st x.ev
      let r' := runEvents r.1 xs
      (r'.1, r.2 ++ r'.2)

/-- Client-side handleSend from App.jsx: returns from the function (emitting
nothing) when the trimmed input is falsy (i.e. the input is all whitespace)
and no file is attached; otherwise builds the wire payload with fields text
and image (never a field named message) and emits private_message when a user
is selected, send_message otherwise. -/
def handleSend (input : String) (hasFile : Bool) (uploadedUrl : String)
    (selectedUser : Option String) : Option InEvent :=
  if input.data.all (fun c => c.isWhitespace) && !hasFile then none
  else
    let imageUrl := if hasFile then uploadedUrl else ""
    match selectedUser with
    | some uid => some (.privateMessage
        { «to» := some uid, text := some input, message := none,
          image := some imageUrl })
    | none => some (.sendMessage
        { «to» := none, text := some input, message := none,
          image := some imageUrl })

/-- Reaction count read off a stored message, 0 when absent. -/
def getReaction (m : Message) (e : String) : Nat :=
  (alookup m.reactions e).getD 0

/-- Number of React(mid, e) events in a trace. -/
def countReact (tr : List Inbound) (mid : Nat) (e : String) : Nat :=
  tr.countP (fun x => x.ev = InEvent.messageReaction mid e)

/-- A trace consisting only of reaction events. -/
def onlyReactions (tr : List Inbound) : Prop :=
  ∀ x ∈ tr, ∃ i e, x.ev = InEvent.messageReaction i e

/-- A concrete state for witnessing the seen/reaction claims: two joined
users and one stored message from s2 seen only by its sender. -/
def exMsg : Message :=
  { id := 10, sender := "b", senderId := "s2", room := "General",
    timestamp := 10, text := "hi", image := "", reactions := [],
    seenBy := ["b"] }

def exStMsg : ServerState :=
  { users := [("s1", ⟨"a", "General", "s1"⟩), ("s2", ⟨"b", "General", "s2"⟩)],
    messages := [exMsg], typingUsers := [] }

section ListLemmas

variable {α : Type}

theorem updateFirst_length (p : α → Bool) (f : α → α) (l : List α) :
    (updateFirst p f l).length = l.length := by
  induction l with
  | nil => rfl
  | cons a l ih =>
      simp only [updateFirst]
      split <;> simp [ih]

theorem find?_updateFirst (p : α → Bool) (f : α → α) (l : List α)
    (hp : ∀ a, p (f a) = p a) :
    (updateFirst p f l).find? p = (l.find? p).map f := by
  induction l with
  | nil => rfl
  | cons a l ih =>
      cases hpa : p a with
      | true =>
          simp only [updateFirst, hpa, if_true]
          rw [List.find?_cons_of_pos _ (by rw [hp a]; exact hpa),
            List.find?_cons_of_pos _ hpa]
          rfl
      | false =>
          simp only [updateFirst, hpa, Bool.false_eq_true, if_false]
          rw [List.find?_cons_of_neg _ (by simp [hpa]),
            List.find?_cons_of_neg _ (by simp [hpa]), ih]

theorem find?_updateFirst_ne (p q : α → Bool) (f : α → α) (l : List α)
    (hpf : ∀ a, p (f a) = p a)
    (hpq : ∀ a, p a = true → q a = false) :
    (updateFirst q f l).find? p = l.find? p := by
  induction l with
  | nil => rfl
  | cons a l ih =>
      cases hqa : q a with
      | true =>
          have hpa : p a = false := by
            cases hh : p a
            · rfl
            · rw [hpq a hh] at hqa; cases hqa
          simp only [updateFirst, hqa, if_true]
          rw [List.find?_cons_of_neg _ (by simp [hpf a, hpa]),
            List.find?_cons_of_neg _ (by simp [hpa])]
      | false =>
          simp only [updateFirst, hqa, Bool.false_eq_true, if_false]
          cases hpa : p a with
          | true =>
              rw [List.find?_cons_of_pos _ hpa, List.find?_cons_of_pos _ hpa]
          | false =>
              rw [List.find?_cons_of_neg _ (by simp [hpa]),
                List.find?_cons_of_neg _ (by simp [hpa]), ih]

theorem mem_updateFirst (p : α → Bool) (f : α → α) (l : List α) (m : α)
    (hm : l.find? p = some m) :
    ∀ b ∈ updateFirst p f l, b ∈ l ∨ b = f m := by
  induction l with
  | nil => intro b hb; cases hb
  | cons a l ih =>
      intro b hb
      cases hpa : p a with
      | true =>
          rw [List.find?_cons_of_pos _ hpa] at hm
          simp only [updateFirst, hpa, if_true, List.mem_cons] at hb
          rcases hb with hb | hb
          · right; rw [hb, Option.some_inj.mp hm]
          · left; exact List.mem_cons_of_mem _ hb
      | false =>
          rw [List.find?_cons_of_neg _ (by simp [hpa])] at hm
          simp only [updateFirst, hpa, Bool.false_eq_true, if_false,
            List.mem_cons] at hb
          rcases hb with hb | hb
          · left; rw [hb]; exact List.mem_cons_self a l
          · rcases ih hm b hb with h | h
            · left; exact List.mem_cons_of_mem _ h
            · right; exact h

theorem forall₂_updateFirst (R : α → α → Prop) (p : α → Bool) (f : α → α)
    (l : List α) (hrefl : ∀ a, R a a) (hf : ∀ a, R a (f a)) :
    List.Forall₂ R l (updateFirst p f l) := by
  induction l with
  | nil => exact List.Forall₂.nil
  | cons a l ih =>
      simp only [updateFirst]
      split
      · exact List.Forall₂.cons (hf a)
          (List.forall₂_same.mpr (fun x _ => hrefl x))
      · exact List.Forall₂.cons (hrefl a) ih

theorem updateFirst_ne (p : α → Bool) (f : α → α) (l : List α) (m : α)
    (hm : l.find? p = some m) (hp : ∀ a, p (f a) = p a) (hne : f m ≠ m) :
    updateFirst p f l ≠ l := by
  intro he
  have h1 : (updateFirst p f l).find? p = some (f m) := by
    rw [find?_updateFirst p f l hp, hm]; rfl
  rw [he, hm] at h1
  exact hne (Option.some_inj.mp h1).symm

end ListLemmas

section AListLemmas

variable {α : Type}

theorem find?_map_replace_self (l : List (String × α)) (k : String) (v : α)
    (h : l.any (fun p => p.1 = k) = true) :
    (l.map (fun p => if p.1 = k then (k, v) else p)).find?
      (fun p => p.1 = k) = some (k, v) := by
  induction l with
  | nil => cases h
  | cons a l ih =>
      by_cases ha : a.1 = k
      · simp only [List.map_cons, if_pos ha]
        rw [List.find?_cons_of_pos _ (by simp)]
      · simp only [List.any_cons, Bool.or_eq_true, decide_eq_true_eq] at h
        rcases h with h | h
        · exact absurd h ha
        · simp only [List.map_cons, if_neg ha]
          rw [List.find?_cons_of_neg _ (by simpa using ha)]
          exact ih h

theorem find?_map_replace_ne (l : List (String × α)) (k k' : String) (v : α)
    (hk : k' ≠ k) :
    (l.map (fun p => if p.1 = k then (k, v) else p)).find?
      (fun p => p.1 = k') = l.find? (fun p => p.1 = k') := by
  induction l with
  | nil => rfl
  | cons a l ih =>
      by_cases ha : a.1 = k
      · have h2 : ¬ (a.1 = k') := by rw [ha]; exact fun h => hk h.symm
        simp only [List.map_cons, if_pos ha]
        rw [List.find?_cons_of_neg _
            (by simpa using (fun h => hk h.symm : ¬ (k = k'))),
          List.find?_cons_of_neg _ (by simpa using h2)]
        exact ih
      · simp only [List.map_cons, if_neg ha]
        by_cases ha' : a.1 = k'
        · rw [List.find?_cons_of_pos _ (by simpa using ha'),
            List.find?_cons_of_pos _ (by simpa using ha')]
        · rw [List.find?_cons_of_neg _ (by simpa using ha'),
            List.find?_cons_of_neg _ (by simpa using ha')]
          exact ih

theorem alookup_ainsert_self (l : List (String × α)) (k : String) (v : α) :
    alookup (ainsert l k v) k = some v := by
  unfold ainsert
  split
  · rename_i h
    simp only [alookup]
    rw [find?_map_replace_self l k v h]
    rfl
  · simp only [alookup, List.find?_append]
    rename_i h
    have hn : l.find? (fun p => p.1 = k) = none := by
      rw [List.find?_eq_none]
      intro x hx
      simp only [decide_eq_true_eq]
      intro hxk
      exact h (List.any_eq_true.mpr ⟨x, hx, by simp [hxk]⟩)
    rw [hn, List.find?_cons_of_pos _ (by simp)]
    rfl

theorem alookup_ainsert_ne (l : List (String × α)) (k k' : String) (v : α)
    (hk : k' ≠ k) : alookup (ainsert l k v) k' = alookup l k' := by
  unfold ainsert
  split
  · simp only [alookup]
    rw [find?_map_replace_ne l k k' v hk]
  · simp only [alookup, List.find?_append]
    have h1 : List.find? (fun p => p.1 = k') [(k, v)] = none := by
      rw [List.find?_cons_of_neg _
        (by simpa using (fun h => hk h.symm : ¬ (k = k')))]
      rfl
    rw [h1]
    cases l.find? (fun p => p.1 = k') <;> rfl

theorem alookup_aerase_self (l : List (String × α)) (k : String) :
    alookup (aerase l k) k = none := by
  have h : (aerase l k).find? (fun p => p.1 = k) = none := by
    rw [List.find?_eq_none]
    intro x hx
    have hx2 := List.of_mem_filter hx
    simp only [decide_eq_true_eq] at hx2 ⊢
    exact hx2
  simp [alookup, h]

theorem not_mem_map_fst_aerase (l : List (String × α)) (k : String) :
    k ∉ (aerase l k).map (·.1) := by
  intro hk
  rcases List.mem_map.mp hk with ⟨p, hp, hpk⟩
  have hx2 := List.of_mem_filter hp
  simp only [decide_eq_true_eq] at hx2
  exact hx2 hpk

theorem mem_aerase (l : List (String × α)) (k : String) (p : String × α)
    (hp : p ∈ aerase l k) : p ∈ l :=
  List.mem_of_mem_filter hp

end AListLemmas

/-- Claim C1 counterexample: a connection that has never joined (no entry in
the user map of the empty initial state) emits a SendPrivate; the claim says
no outbound event is emitted to any connection, but the private_message
handler has no joined-check and emits the message to the recipient and echoes
it to the sender. -/
theorem c1_unjoined_counterexample :
    (step "s1" 5 initState
      (.privateMessage ⟨some "s2", none, some "hi", none⟩)).2 ≠ [] := by
  decide

/-- Claim C1 (amended): Send, SetTyping, MarkSeen and Disconnect from an
unjoined connection are rejected silently (state unchanged, no outbound), but
SendPrivate is not gated on having joined: it leaves the state unchanged yet
emits a PrivateMessage with sender Anonymous to the recipient and echoes it
to the sender; React is likewise not gated on having joined: when the target
message exists it still bumps that message's reaction count in place and
broadcasts the updated message to the message's room. -/
theorem c1_unjoined_amended (st : ServerState) (sid : String) (now : Nat)
    (h : alookup st.users sid = none) :
    (∀ data, step sid now st (.sendMessage data) = (st, [])) ∧
    (∀ b, step sid now st (.typing b) = (st, [])) ∧
    (∀ mid, step sid now st (.messageSeen mid) = (st, [])) ∧
    (step sid now st .disconnect = (st, [])) ∧
    (∀ data, step sid now st (.privateMessage data) =
      (st, [.privateMessageOut data.«to»
              ⟨now, "Anonymous", sid, data.message, data.image, true, now⟩,
            .privateMessageOut (some sid)
              ⟨now, "Anonymous", sid, data.message, data.image, true, now⟩])) ∧
    (∀ mid em m, findMsg st.messages mid = some m →
      step sid now st (.messageReaction mid em) =
        ({ st with messages := (updateFirst (fun (x : Message) => x.id = mid)
            (addReact em) st.messages) },
         [.receiveMessage m.room (addReact em m)])) := by
  refine ⟨?_, ?_, ?_, ?_, ?_, ?_⟩
  · intro data; simp [step, h]
  · intro b; simp [step, h]
  · intro mid
    cases hf : findMsg st.messages mid <;> simp [step, h, hf]
  · simp [step, h]
  · intro data; simp [step, h, mkPrivMsg]
  · intro mid em m hfm; simp [step, hfm]

/-- Witness for c1_unjoined_amended at concrete unjoined connections: typing
is silently dropped, while a reaction to an existing message from the
unjoined connection s3 mutates the store and broadcasts. -/
theorem c1_unjoined_amended_witness :
    step "s1" 0 initState (.typing true) = (initState, []) ∧
    step "s3" 30 exStMsg (.messageReaction 10 "u") =
      ({ exStMsg with messages := (updateFirst (fun (x : Message) => x.id = 10)
          (addReact "u") exStMsg.messages) },
       [.receiveMessage exMsg.room (addReact "u" exMsg)]) :=
  ⟨(c1_unjoined_amended initState "s1" 0 rfl).2.1 true,
   (c1_unjoined_amended exStMsg "s3" 30 (by decide)).2.2.2.2.2 10 "u" exMsg
     (by decide)⟩

/-- Claim C2 (code bug): the send_message handler assigns id := Date.now(),
so two Send events processed in the same wall-clock tick (here tick 100)
yield two stored messages with the same id, violating id uniqueness. -/
theorem c2_same_tick_id_collision :
    ((runEvents initState
        [⟨"s1", 100, .userJoin "a" "General"⟩,
         ⟨"s1", 100, .sendMessage ⟨none, some "hi", none, none⟩⟩,
         ⟨"s1", 100, .sendMessage ⟨none, some "yo", none, none⟩⟩]).1.messages.map
      (fun m => m.id)) = [100, 100] := by
  decide

/-- Claim C3 counterexample: a Send event whose payload has empty text and no
media, arriving from a joined connection, is not rejected by the engine: a
message is appended to the store (length goes from 0 to 1) and a NewMessage
broadcast is emitted. -/
theorem c3_empty_send_counterexample :
    ((step "s1" 2 ((step "s1" 1 initState (.userJoin "a" "General")).1)
        (.sendMessage ⟨none, some "", none, none⟩)).1.messages.length = 1) ∧
    (step "s1" 2 ((step "s1" 1 initState (.userJoin "a" "General")).1)
        (.sendMessage ⟨none, some "", none, none⟩)).2 ≠ [] := by
  decide

/-- Claim C3 (amended): the empty-send rejection is client-side only: the
bundled client's handleSend emits no event at all when the trimmed input is
empty and no file is attached (so no state change and no outbound), while the
engine itself performs no validation: a Send event with empty text and no
media from a joined connection appends an empty-text message to the store and
broadcasts it to the sender's room. -/
theorem c3_empty_send_amended (input : String) (url : String)
    (sel : Option String) (h : input.data.all (fun c => c.isWhitespace) = true) :
    handleSend input false url sel = none ∧
    (∀ st sid now u, alookup st.users sid = some u →
      ∃ l', ((step sid now st
          (.sendMessage ⟨none, some "", none, none⟩)).1.messages =
            l' ++ [mkSendMsg sid now u ⟨none, some "", none, none⟩]) ∧
        (step sid now st (.sendMessage ⟨none, some "", none, none⟩)).2 =
          [.receiveMessage u.room
            (mkSendMsg sid now u ⟨none, some "", none, none⟩)]) := by
  constructor
  · simp [handleSend, h]
  · intro st sid now u hu
    by_cases hlen :
        (st.messages ++ [mkSendMsg sid now u ⟨none, some "", none, none⟩]).length > 200
    · cases hms : st.messages with
      | nil => rw [hms] at hlen; simp at hlen
      | cons a rest =>
          have hr : ((a :: rest) ++
              [mkSendMsg sid now u ⟨none, some "", none, none⟩]).length > 200 := by
            rw [hms] at hlen; exact hlen
          refine ⟨rest, ?_, ?_⟩
          · simp only [step, hu, hms]
            rw [if_pos hr]
            simp
          · simp [step, hu]
    · refine ⟨st.messages, ?_, ?_⟩
      · simp only [step, hu]
        rw [if_neg hlen]
      · simp [step, hu]

/-- Witness for c3_empty_send_amended at the empty compose and a concrete
joined connection. -/
theorem c3_empty_send_amended_witness :
    handleSend "" false "" none = none ∧
    (∃ l', ((step "s1" 2 ((step "s1" 1 initState (.userJoin "a" "General")).1)
        (.sendMessage ⟨none, some "", none, none⟩)).1.messages =
          l' ++ [mkSendMsg "s1" 2 ⟨"a", "General", "s1"⟩
                   ⟨none, some "", none, none⟩]) ∧
      (step "s1" 2 ((step "s1" 1 initState (.userJoin "a" "General")).1)
        (.sendMessage ⟨none, some "", none, none⟩)).2 =
        [.receiveMessage "General"
          (mkSendMsg "s1" 2 ⟨"a", "General", "s1"⟩ ⟨none, some "", none, none⟩)]) :=
  ⟨(c3_empty_send_amended "" "" none (by decide)).1,
   (c3_empty_send_amended "" "" none (by decide)).2
     ((step "s1" 1 initState (.userJoin "a" "General")).1) "s1" 2
     ⟨"a", "General", "s1"⟩ (by decide)⟩

/-- Claim C9: the private_message handler destructures the inbound payload as
fields to, message, image; the bundled client's handleSend carries the typed
text under the field named text, so every private send built by handleSend is
delivered to the recipient (and echoed to the sender) with an absent message
body: the typed text is never forwarded. -/
theorem c9_private_text_dropped (input url uid : String) (hasFile : Bool)
    (ev : InEvent) (hev : handleSend input hasFile url (some uid) = some ev)
    (st : ServerState) (sid : String) (now : Nat) :
    ∃ m : PrivMsg,
      (step sid now st ev).2 =
        [.privateMessageOut (some uid) m, .privateMessageOut (some sid) m] ∧
      m.message = none := by
  unfold handleSend at hev
  by_cases hc : (input.data.all (fun c => c.isWhitespace) && !hasFile) = true
  · rw [if_pos hc] at hev; cases hev
  · rw [if_neg hc] at hev
    have hev2 : InEvent.privateMessage
        ⟨some uid, some input, none, some (if hasFile then url else "")⟩ = ev :=
      Option.some_inj.mp hev
    rw [← hev2]
    exact ⟨mkPrivMsg sid now (alookup st.users sid)
      ⟨some uid, some input, none, some (if hasFile then url else "")⟩,
      rfl, rfl⟩

/-- Witness for c9_private_text_dropped at a concrete private send. -/
theorem c9_private_text_dropped_witness :
    ∃ m : PrivMsg,
      (step "s1" 3 initState
        (.privateMessage ⟨some "s2", some "hello", none, some ""⟩)).2 =
        [.privateMessageOut (some "s2") m, .privateMessageOut (some "s1") m] ∧
      m.message = none :=
  c9_private_text_dropped "hello" "" "s2" false
    (.privateMessage ⟨some "s2", some "hello", none, some ""⟩) (by decide)
    initState "s1" 3

/-- Claim C10: the 200-entry cap is one global bound across all rooms: with
the shared store at length 200, a Send from any joined connection (into
whatever room that connection occupies) evicts the head of the shared log,
i.e. the globally oldest stored message regardless of its room, and appends
the new message. -/
theorem c10_global_eviction (st : ServerState) (sid : String) (now : Nat)
    (u : Participant) (data : Payload)
    (hu : alookup st.users sid = some u) (hlen : st.messages.length = 200) :
    ((step sid now st (.sendMessage data)).1).messages =
      st.messages.tail ++ [mkSendMsg sid now u data] ∧
    ((step sid now st (.sendMessage data)).1).messages.length = 200 := by
  have hlen2 : (st.messages ++ [mkSendMsg sid now u data]).length > 200 := by
    simp [hlen]
  have key : ((step sid now st (.sendMessage data)).1).messages =
      st.messages.tail ++ [mkSendMsg sid now u data] := by
    cases hms : st.messages with
    | nil => rw [hms] at hlen; cases hlen
    | cons a rest =>
        have hr : ((a :: rest) ++ [mkSendMsg sid now u data]).length > 200 := by
          rw [hms] at hlen2; exact hlen2
        simp only [step, hu, hms]
        rw [if_pos hr]
        simp
  refine ⟨key, ?_⟩
  rw [key]
  have htl : st.messages.tail.length = 199 := by
    rw [List.length_tail, hlen]
  simp [htl]

/-- A state used to witness the global eviction: the store is full (200
entries) and its oldest entry belongs to room B while the only participant is
in room A. -/
def msgA (i : Nat) : Message :=
  { id := i, sender := "a", senderId := "s1", room := "A", timestamp := i,
    text := "t", image := "", reactions := [], seenBy := ["a"] }

def exStCap : ServerState :=
  { users := [("s1", ⟨"a", "A", "s1"⟩)],
    messages := { msgA 0 with room := "B" } ::
      (List.range 199).map (fun i => msgA (i + 1)),
    typingUsers := [] }

/-- Witness for c10_global_eviction: the evicted head belongs to room B while
the send goes to room A. -/
theorem c10_global_eviction_witness :
    (exStCap.messages.head?.map (fun m => m.room) = some "B") ∧
    ((step "s1" 500 exStCap (.sendMessage ⟨none, some "t", none, none⟩)).1).messages =
      exStCap.messages.tail ++
        [mkSendMsg "s1" 500 ⟨"a", "A", "s1"⟩ ⟨none, some "t", none, none⟩] :=
  ⟨rfl, (c10_global_eviction exStCap "s1" 500 ⟨"a", "A", "s1"⟩
      ⟨none, some "t", none, none⟩ (by decide)
      (by set_option maxRecDepth 100000 in decide)).1⟩

/-- Recognizer for UserLeft emissions. -/
def isUserLeftEv : OutEvent → Bool
  | .userLeft _ _ => true
  | _ => false

/-- Claim C7: disconnect of a joined connection removes it from the user map
and the typing map — hence its connection id is absent from every room's
participant listing and from the typing map keys — and the emissions are
exactly a UserList followed by one UserLeft, both to the former room (so
exactly one UserLeft); disconnect of a never-joined connection changes
nothing and emits nothing. The hypothesis hwf (each stored participant's id
field equals its key) is the invariant the user_join handler establishes. -/
theorem c7_disconnect_cleanup (st : ServerState) (sid : String) (now : Nat)
    (hwf : ∀ p ∈ st.users, p.2.id = p.1) :
    (∀ u, alookup st.users sid = some u →
      alookup ((step sid now st .disconnect).1).users sid = none ∧
      (∀ room q, q ∈ roomUsers ((step sid now st .disconnect).1).users room →
        q.id ≠ sid) ∧
      sid ∉ ((step sid now st .disconnect).1).typingUsers.map (·.1) ∧
      (step sid now st .disconnect).2 =
        [.userList u.room (roomUsers (aerase st.users sid) u.room),
         .userLeft u.room u.username] ∧
      ((step sid now st .disconnect).2.countP isUserLeftEv) = 1) ∧
    (alookup st.users sid = none → step sid now st .disconnect = (st, [])) := by
  constructor
  · intro u hu
    refine ⟨?_, ?_, ?_, ?_, ?_⟩
    · simp only [step, hu]
      exact alookup_aerase_self st.users sid
    · intro room q hq
      simp only [step, hu] at hq
      unfold roomUsers at hq
      have hq2 := List.mem_of_mem_filter hq
      rcases List.mem_map.mp hq2 with ⟨p, hp, hpq⟩
      have hid := hwf p (mem_aerase st.users sid p hp)
      intro hqs
      have hp1 : p.1 = sid := by rw [← hid, hpq, hqs]
      have hne := List.of_mem_filter hp
      simp only [decide_eq_true_eq] at hne
      exact hne hp1
    · simp only [step, hu]
      exact not_mem_map_fst_aerase st.typingUsers sid
    · simp only [step, hu]
    · simp only [step, hu]
      rfl
  · intro hn
    simp [step, hn]

/-- A concrete joined state used as witness input: two users in room General,
one typing entry for s1. -/
def exStJoined : ServerState :=
  { users := [("s1", ⟨"a", "General", "s1"⟩), ("s2", ⟨"b", "General", "s2"⟩)],
    messages := [], typingUsers := [("s1", "a")] }

/-- Witness for c7_disconnect_cleanup at a concrete joined connection. -/
theorem c7_disconnect_cleanup_witness :
    alookup ((step "s1" 9 exStJoined .disconnect).1).users "s1" = none ∧
    "s1" ∉ ((step "s1" 9 exStJoined .disconnect).1).typingUsers.map (·.1) ∧
    (step "s1" 9 exStJoined .disconnect).2 =
      [.userList "General" (roomUsers (aerase exStJoined.users "s1") "General"),
       .userLeft "General" "a"] := by
  have h := (c7_disconnect_cleanup exStJoined "s1" 9 (by decide)).1
      ⟨"a", "General", "s1"⟩ (by decide)
  exact ⟨h.1, h.2.2.1, h.2.2.2.1⟩

section KeyLemmas

variable {α : Type}

theorem map_fst_ainsert_of_any (l : List (String × α)) (k : String) (v : α)
    (h : l.any (fun p => p.1 = k) = true) :
    (ainsert l k v).map (·.1) = l.map (·.1) := by
  unfold ainsert
  rw [if_pos h, List.map_map]
  apply List.map_congr_left
  intro p hp
  by_cases hpk : p.1 = k
  · simp [Function.comp, hpk]
  · simp [Function.comp, hpk]

theorem map_fst_ainsert_of_not_any (l : List (String × α)) (k : String) (v : α)
    (h : l.any (fun p => p.1 = k) = false) :
    (ainsert l k v).map (·.1) = l.map (·.1) ++ [k] := by
  unfold ainsert
  rw [if_neg (by simp [h]), List.map_append]
  rfl

theorem nodup_keys_ainsert (l : List (String × α)) (k : String) (v : α)
    (hn : (l.map (·.1)).Nodup) : ((ainsert l k v).map (·.1)).Nodup := by
  cases h : l.any (fun p => p.1 = k) with
  | true => rw [map_fst_ainsert_of_any l k v h]; exact hn
  | false =>
      rw [map_fst_ainsert_of_not_any l k v h, List.nodup_append]
      refine ⟨hn, List.nodup_singleton k, ?_⟩
      intro a ha hak
      rw [List.mem_singleton] at hak
      subst hak
      rcases List.mem_map.mp ha with ⟨p, hp, hpk⟩
      rw [List.any_eq_false] at h
      have h2 := h p hp
      simp only [decide_eq_true_eq] at h2
      exact h2 hpk

theorem mem_keys_ainsert_self (l : List (String × α)) (k : String) (v : α) :
    k ∈ (ainsert l k v).map (·.1) := by
  cases h : l.any (fun p => p.1 = k) with
  | true =>
      rw [map_fst_ainsert_of_any l k v h]
      rw [List.any_eq_true] at h
      rcases h with ⟨p, hp, hpk⟩
      simp only [decide_eq_true_eq] at hpk
      exact List.mem_map.mpr ⟨p, hp, hpk⟩
  | false =>
      rw [map_fst_ainsert_of_not_any l k v h]
      simp

theorem countP_eq_one_of_nodup_mem (l : List String) (k : String)
    (hn : l.Nodup) (hk : k ∈ l) : l.countP (fun s => s = k) = 1 := by
  induction l with
  | nil => cases hk
  | cons a l ih =>
      rw [List.countP_cons]
      rcases List.mem_cons.mp hk with h | h
      · subst h
        have hz : List.countP (fun s => decide (s = k)) l = 0 := by
          rw [List.countP_eq_zero]
          intro x hx
          simp only [decide_eq_true_eq]
          intro he
          subst he
          exact (List.nodup_cons.mp hn).1 hx
        simp [hz]
      · have ha : ¬ (a = k) := by
          intro he
          refine (List.nodup_cons.mp hn).1 ?_
          rw [he]
          exact h
        rw [ih (List.nodup_cons.mp hn).2 h]
        simp [ha]

theorem hwf_ainsert (l : List (String × Participant)) (k : String)
    (v : Participant) (hv : v.id = k) (hwf : ∀ p ∈ l, p.2.id = p.1) :
    ∀ p ∈ ainsert l k v, p.2.id = p.1 := by
  intro p hp
  unfold ainsert at hp
  split at hp
  · rcases List.mem_map.mp hp with ⟨q, hq, hqp⟩
    by_cases hqk : q.1 = k
    · rw [← hqp]
      simp [hqk, hv]
    · rw [← hqp]
      simp only [if_neg hqk]
      exact hwf q hq
  · rcases List.mem_append.mp hp with h | h
    · exact hwf p h
    · rw [List.mem_singleton] at h
      subst h
      exact hv

end KeyLemmas

/-- Claim C8: join has overwrite semantics: after a connection joins twice
(any names and rooms), its key maps to the participant of the second join
(latest name and room), the user map holds exactly one entry for that key,
every room's participant listing contains at most one participant with that
connection id, and the second join still emits its UserList and UserJoined
(no error). Hypotheses: the state's user-map keys are distinct and each
participant's id equals its key — both invariants of the real store. -/
theorem c8_join_overwrite (st : ServerState) (sid : String) (n1 n2 : Nat)
    (name1 room1 name2 room2 : String)
    (hkeys : (st.users.map (·.1)).Nodup)
    (hwf : ∀ p ∈ st.users, p.2.id = p.1) :
    alookup ((step sid n2 ((step sid n1 st (.userJoin name1 room1)).1)
        (.userJoin name2 room2)).1).users sid = some ⟨name2, room2, sid⟩ ∧
    ((step sid n2 ((step sid n1 st (.userJoin name1 room1)).1)
        (.userJoin name2 room2)).1).users.countP (fun p => p.1 = sid) = 1 ∧
    (∀ room, (roomUsers ((step sid n2 ((step sid n1 st (.userJoin name1 room1)).1)
        (.userJoin name2 room2)).1).users room).countP
          (fun q => q.id = sid) ≤ 1) ∧
    (step sid n2 ((step sid n1 st (.userJoin name1 room1)).1)
        (.userJoin name2 room2)).2 =
      [.userList room2 (roomUsers ((step sid n2
          ((step sid n1 st (.userJoin name1 room1)).1)
          (.userJoin name2 room2)).1).users room2),
       .userJoined room2 name2 sid] := by
  have husers : ((step sid n2 ((step sid n1 st (.userJoin name1 room1)).1)
      (.userJoin name2 room2)).1).users =
      ainsert (ainsert st.users sid ⟨name1, room1, sid⟩) sid
        ⟨name2, room2, sid⟩ := by
    simp [step]
  have hkeys2 : (((ainsert (ainsert st.users sid ⟨name1, room1, sid⟩) sid
      ⟨name2, room2, sid⟩)).map (·.1)).Nodup :=
    nodup_keys_ainsert _ _ _ (nodup_keys_ainsert _ _ _ hkeys)
  have hwf2 : ∀ p ∈ ainsert (ainsert st.users sid ⟨name1, room1, sid⟩) sid
      ⟨name2, room2, sid⟩, p.2.id = p.1 :=
    hwf_ainsert _ _ _ rfl (hwf_ainsert _ _ _ rfl hwf)
  have hcnt : (ainsert (ainsert st.users sid ⟨name1, room1, sid⟩) sid
      ⟨name2, room2, sid⟩).countP (fun p => p.1 = sid) = 1 := by
    have h1 : (ainsert (ainsert st.users sid ⟨name1, room1, sid⟩) sid
        ⟨name2, room2, sid⟩).countP (fun p => p.1 = sid) =
        ((ainsert (ainsert st.users sid ⟨name1, room1, sid⟩) sid
          ⟨name2, room2, sid⟩).map (·.1)).countP (fun s => s = sid) := by
      rw [List.countP_map]
      rfl
    rw [h1]
    exact countP_eq_one_of_nodup_mem _ _ hkeys2 (mem_keys_ainsert_self _ _ _)
  refine ⟨?_, ?_, ?_, ?_⟩
  · rw [husers]
    exact alookup_ainsert_self _ _ _
  · rw [husers]
    exact hcnt
  · intro room
    rw [husers]
    calc (roomUsers (ainsert (ainsert st.users sid ⟨name1, room1, sid⟩) sid
          ⟨name2, room2, sid⟩) room).countP (fun q => q.id = sid)
        ≤ ((ainsert (ainsert st.users sid ⟨name1, room1, sid⟩) sid
          ⟨name2, room2, sid⟩).map (·.2)).countP (fun q => q.id = sid) :=
          List.Sublist.countP_le _ (List.filter_sublist _)
      _ = (ainsert (ainsert st.users sid ⟨name1, room1, sid⟩) sid
          ⟨name2, room2, sid⟩).countP (fun p => p.2.id = sid) := by
          rw [List.countP_map]
          rfl
      _ = (ainsert (ainsert st.users sid ⟨name1, room1, sid⟩) sid
          ⟨name2, room2, sid⟩).countP (fun p => p.1 = sid) :=
          List.countP_congr (fun p hp => by rw [hwf2 p hp])
      _ = 1 := hcnt
  · simp [step]

/-- Witness for c8_join_overwrite: double join from the empty state. -/
theorem c8_join_overwrite_witness :
    alookup ((step "s1" 2 ((step "s1" 1 initState (.userJoin "a" "R1")).1)
        (.userJoin "b" "R2")).1).users "s1" = some ⟨"b", "R2", "s1"⟩ :=
  (c8_join_overwrite initState "s1" 1 2 "a" "R1" "b" "R2"
    List.nodup_nil (fun p hp => absurd hp (List.not_mem_nil p))).1

/-- Claim C5: markSeen is idempotent and seenBy is monotone: processing the
same MarkSeen twice equals processing it once (the second pass changes
nothing and emits nothing); a SeenUpdate is emitted iff the state actually
changed; seenBy never acquires duplicates; each stored message's seenBy only
grows (in length and as a set); and when the set does change the emission is
exactly one SeenUpdate to the message's room carrying the updated set. -/
theorem c5_markSeen (st : ServerState) (sid : String) (mid : Nat)
    (n1 n2 : Nat) :
    (step sid n2 ((step sid n1 st (.messageSeen mid)).1) (.messageSeen mid) =
      ((step sid n1 st (.messageSeen mid)).1, [])) ∧
    ((step sid n1 st (.messageSeen mid)).2 ≠ [] ↔
      (step sid n1 st (.messageSeen mid)).1 ≠ st) ∧
    ((∀ m ∈ st.messages, m.seenBy.Nodup) →
      ∀ m' ∈ ((step sid n1 st (.messageSeen mid)).1).messages,
        m'.seenBy.Nodup) ∧
    List.Forall₂
      (fun a b => a.seenBy.length ≤ b.seenBy.length ∧ a.seenBy ⊆ b.seenBy)
      st.messages ((step sid n1 st (.messageSeen mid)).1).messages ∧
    (∀ u m, alookup st.users sid = some u →
      findMsg st.messages mid = some m → u.username ∉ m.seenBy →
      (step sid n1 st (.messageSeen mid)).2 =
        [.messageSeenUpdate m.room mid (m.seenBy ++ [u.username])]) := by
  cases hu : alookup st.users sid with
  | none =>
      have hstep : ∀ n, step sid n st (.messageSeen mid) = (st, []) := by
        intro n
        cases hf : findMsg st.messages mid <;> simp [step, hu, hf]
      refine ⟨?_, ?_, ?_, ?_, ?_⟩
      · rw [hstep n1]
        exact hstep n2
      · rw [hstep n1]
        simp
      · intro hnd m' hm'
        rw [hstep n1] at hm'
        exact hnd m' hm'
      · rw [hstep n1]
        exact List.forall₂_same.mpr (fun x _ => ⟨le_refl _, List.Subset.refl _⟩)
      · intro u' m' hu' hf' hnin
        cases hu'
  | some u =>
      cases hf : findMsg st.messages mid with
      | none =>
          have hstep : ∀ n, step sid n st (.messageSeen mid) = (st, []) := by
            intro n
            simp [step, hu, hf]
          refine ⟨?_, ?_, ?_, ?_, ?_⟩
          · rw [hstep n1]
            exact hstep n2
          · rw [hstep n1]
            simp
          · intro hnd m' hm'
            rw [hstep n1] at hm'
            exact hnd m' hm'
          · rw [hstep n1]
            exact List.forall₂_same.mpr (fun x _ => ⟨le_refl _, List.Subset.refl _⟩)
          · intro u' m' hu' hf' hnin
            cases hf'
      | some m =>
          by_cases hin : u.username ∈ m.seenBy
          · have hstep : ∀ n, step sid n st (.messageSeen mid) = (st, []) := by
              intro n
              simp [step, hu, hf, hin]
            refine ⟨?_, ?_, ?_, ?_, ?_⟩
            · rw [hstep n1]
              exact hstep n2
            · rw [hstep n1]
              simp
            · intro hnd m' hm'
              rw [hstep n1] at hm'
              exact hnd m' hm'
            · rw [hstep n1]
              exact List.forall₂_same.mpr (fun x _ => ⟨le_refl _, List.Subset.refl _⟩)
            · intro u' m' hu' hf' hnin
              obtain rfl : u = u' := Option.some_inj.mp hu'
              obtain rfl : m = m' := Option.some_inj.mp hf'
              exact absurd hin hnin
          · have hstep : ∀ n, step sid n st (.messageSeen mid) =
                ({ st with messages := (updateFirst (fun x => x.id = mid)
                    (pushSeen u.username) st.messages) },
                 [.messageSeenUpdate m.room mid (m.seenBy ++ [u.username])]) := by
              intro n
              simp [step, hu, hf, hin]
            have hne : pushSeen u.username m ≠ m := by
              intro he
              have h2 := congrArg Message.seenBy he
              simp only [pushSeen] at h2
              have h3 := congrArg List.length h2
              simp at h3
            refine ⟨?_, ?_, ?_, ?_, ?_⟩
            · rw [hstep n1]
              have hf2 : findMsg (updateFirst (fun x => x.id = mid)
                  (pushSeen u.username) st.messages) mid =
                  some (pushSeen u.username m) := by
                unfold findMsg
                rw [find?_updateFirst (fun (x : Message) => decide (x.id = mid))
                  (pushSeen u.username) st.messages (fun a => rfl)]
                have hf' : st.messages.find?
                    (fun (x : Message) => decide (x.id = mid)) = some m := hf
                rw [hf']
                rfl
              have hin2 : u.username ∈ (pushSeen u.username m).seenBy := by
                simp [pushSeen]
              simp [step, hu, hf2, hin2]
            · rw [hstep n1]
              have hne' : ({ st with messages := (updateFirst
                  (fun x => x.id = mid) (pushSeen u.username) st.messages) } :
                    ServerState) ≠ st := by
                intro he
                have hm2 := congrArg ServerState.messages he
                exact updateFirst_ne (fun (x : Message) => decide (x.id = mid))
                  (pushSeen u.username) st.messages m hf (fun a => rfl) hne hm2
              exact iff_of_true (by simp) hne'
            · intro hnd m' hm'
              rw [hstep n1] at hm'
              rcases mem_updateFirst _ _ _ m hf m' hm' with h | h
              · exact hnd m' h
              · rw [h]
                simp only [pushSeen]
                rw [List.nodup_append]
                refine ⟨hnd m (List.mem_of_find?_eq_some hf),
                  List.nodup_singleton _, ?_⟩
                intro a ha hasing
                rw [List.mem_singleton] at hasing
                subst hasing
                exact hin ha
            · rw [hstep n1]
              exact forall₂_updateFirst _ _ _ _
                (fun a => ⟨le_refl _, List.Subset.refl _⟩)
                (fun a => ⟨by simp [pushSeen],
                  by simp only [pushSeen]; exact List.subset_append_left _ _⟩)
            · intro u' m' hu' hf' hnin
              obtain rfl : u = u' := Option.some_inj.mp hu'
              obtain rfl : m = m' := Option.some_inj.mp hf'
              rw [hstep n1]

/-- Witness for c5_markSeen: a concrete MarkSeen by a user not yet in seenBy
emits exactly one SeenUpdate to the message's room with the grown set. -/
theorem c5_markSeen_witness :
    (step "s1" 3 exStMsg (.messageSeen 10)).2 =
      [.messageSeenUpdate "General" 10 ["b", "a"]] := by
  have h := (c5_markSeen exStMsg "s1" 10 3 4).2.2.2.2 ⟨"a", "General", "s1"⟩
      exMsg (by decide) (by decide) (by decide)
  exact h

/-- One reaction bumps exactly the reacted emoji's count by one. -/
theorem getReaction_addReact (m : Message) (em e : String) :
    getReaction (addReact em m) e =
      getReaction m e + (if em = e then 1 else 0) := by
  by_cases h : em = e
  · subst h
    simp [getReaction, addReact, alookup_ainsert_self]
  · rw [if_neg h]
    simp only [getReaction, addReact]
    rw [alookup_ainsert_ne _ _ _ _ (fun he => h he.symm)]
    simp

/-- Claim C6: reaction counting is exactly additive: over any trace
consisting only of React events, the stored message first found under a given
id keeps its identity fields and ends with its count for each emoji equal to
the initial count plus exactly the number of React events for that id and
emoji in the trace (so interleaved reactions to other emojis or other ids
leave it untouched); the user map, typing map and store length are
unchanged. -/
theorem c6_reaction_additivity (tr : List Inbound) (st : ServerState)
    (htr : onlyReactions tr) (mid : Nat) (e : String) (m : Message)
    (hm : findMsg st.messages mid = some m) :
    ∃ m', findMsg ((runEvents st tr).1).messages mid = some m' ∧
      m'.id = m.id ∧ m'.room = m.room ∧ m'.text = m.text ∧
      m'.seenBy = m.seenBy ∧
      getReaction m' e = getReaction m e + countReact tr mid e ∧
      ((runEvents st tr).1).users = st.users ∧
      ((runEvents st tr).1).typingUsers = st.typingUsers ∧
      ((runEvents st tr).1).messages.length = st.messages.length := by
  induction tr generalizing st m with
  | nil =>
      exact ⟨m, hm, rfl, rfl, rfl, rfl, by simp [countReact], rfl, rfl, rfl⟩
  | cons x xs ih =>
      obtain ⟨j, em, hx⟩ := htr x (List.mem_cons_self x xs)
      have htr' : onlyReactions xs :=
        fun y hy => htr y (List.mem_cons_of_mem x hy)
      simp only [runEvents]
      rw [hx]
      cases hfj : findMsg st.messages j with
      | none =>
          have hstep : step x.sid x.now st (.messageReaction j em) = (st, []) := by
            simp [step, hfj]
          rw [hstep]
          have hjm : j ≠ mid := by
            intro he
            subst he
            rw [hfj] at hm
            cases hm
          have hcnt : countReact (x :: xs) mid e = countReact xs mid e := by
            simp only [countReact, List.countP_cons, hx]
            simp [hjm]
          rw [hcnt]
          exact ih st htr' m hm
      | some mj =>
          have hstep : step x.sid x.now st (.messageReaction j em) =
              ({ st with messages := (updateFirst (fun (y : Message) => y.id = j)
                  (addReact em) st.messages) },
               [.receiveMessage mj.room (addReact em mj)]) := by
            simp [step, hfj]
          rw [hstep]
          by_cases hjm : j = mid
          · subst hjm
            have hmj : mj = m := by
              rw [hm] at hfj
              exact (Option.some_inj.mp hfj).symm
            rw [hmj] at hstep
            have hf2 : findMsg (updateFirst (fun (y : Message) => decide (y.id = j))
                (addReact em) st.messages) j = some (addReact em m) := by
              unfold findMsg
              rw [find?_updateFirst (fun (y : Message) => decide (y.id = j))
                (addReact em) st.messages (fun a => rfl)]
              have hm2 : st.messages.find?
                  (fun (y : Message) => decide (y.id = j)) = some m := hm
              rw [hm2]
              rfl
            obtain ⟨m', h1, h2, h3, h4, h5, h6, h7, h8, h9⟩ :=
              ih ({ st with messages := (updateFirst
                (fun (y : Message) => y.id = j) (addReact em) st.messages) })
                htr' (addReact em m) hf2
            have hcnt : countReact (x :: xs) j e =
                countReact xs j e + (if em = e then 1 else 0) := by
              simp only [countReact, List.countP_cons, hx]
              by_cases hee : em = e
              · subst hee
                simp
              · simp [hee]
            refine ⟨m', h1, h2, h3, h4, h5, ?_, h7, h8,
              h9.trans (updateFirst_length _ _ _)⟩
            calc getReaction m' e
                = getReaction (addReact em m) e + countReact xs j e := h6
              _ = (getReaction m e + (if em = e then 1 else 0)) +
                  countReact xs j e := by rw [getReaction_addReact]
              _ = getReaction m e + countReact (x :: xs) j e := by
                  rw [hcnt]
                  omega
          · have hf2 : findMsg (updateFirst (fun (y : Message) => decide (y.id = j))
                (addReact em) st.messages) mid = some m := by
              unfold findMsg
              have hpq : ∀ (a : Message), decide (a.id = mid) = true →
                  decide (a.id = j) = false := by
                intro a ha
                simp only [decide_eq_true_eq] at ha
                simp only [decide_eq_false_iff_not]
                rw [ha]
                exact fun he => hjm he.symm
              rw [find?_updateFirst_ne (fun (a : Message) => decide (a.id = mid))
                (fun (a : Message) => decide (a.id = j)) (addReact em)
                st.messages (fun a => rfl) hpq]
              exact hm
            obtain ⟨m', h1, h2, h3, h4, h5, h6, h7, h8, h9⟩ :=
              ih ({ st with messages := (updateFirst
                (fun (y : Message) => y.id = j) (addReact em) st.messages) })
                htr' m hf2
            have hcnt : countReact (x :: xs) mid e = countReact xs mid e := by
              simp only [countReact, List.countP_cons, hx]
              simp [hjm]
            refine ⟨m', h1, h2, h3, h4, h5, ?_, h7, h8,
              h9.trans (updateFirst_length _ _ _)⟩
            rw [hcnt]
            exact h6

/-- A concrete all-reactions trace for the C6 witness: two thumbs on message
10, one heart on message 10, one thumb on an absent id. -/
def trW : List Inbound :=
  [⟨"s1", 20, .messageReaction 10 "u"⟩,
   ⟨"s2", 21, .messageReaction 10 "h"⟩,
   ⟨"s1", 22, .messageReaction 10 "u"⟩,
   ⟨"s2", 23, .messageReaction 99 "u"⟩]

/-- Witness for c6_reaction_additivity on the concrete trace trW. -/
theorem c6_reaction_additivity_witness :
    ∃ m', findMsg ((runEvents exStMsg trW).1).messages 10 = some m' ∧
      m'.id = exMsg.id ∧ m'.room = exMsg.room ∧ m'.text = exMsg.text ∧
      m'.seenBy = exMsg.seenBy ∧
      getReaction m' "u" = getReaction exMsg "u" + countReact trW 10 "u" ∧
      ((runEvents exStMsg trW).1).users = exStMsg.users ∧
      ((runEvents exStMsg trW).1).typingUsers = exStMsg.typingUsers ∧
      ((runEvents exStMsg trW).1).messages.length =
        exStMsg.messages.length :=
  c6_reaction_additivity trW exStMsg
    (by
      intro x hx
      simp only [trW, List.mem_cons, List.not_mem_nil, or_false] at hx
      rcases hx with rfl | rfl | rfl | rfl
      · exact ⟨10, "u", rfl⟩
      · exact ⟨10, "h", rfl⟩
      · exact ⟨10, "u", rfl⟩
      · exact ⟨99, "u", rfl⟩)
    10 "u" exMsg (by decide)

/-- A join followed by 201 sends at distinct ticks 1..201, filling the store
past its cap. -/
def trCap : List Inbound :=
  ⟨"s1", 0, .userJoin "a" "General"⟩ ::
    (List.range 201).map (fun i =>
      ⟨"s1", i + 1, .sendMessage ⟨none, some "m", none, none⟩⟩)

/-- Claim C4: the message store is bounded at 200 with FIFO eviction: every
event preserves the bound (a send appends then drops the single oldest entry
when the length would exceed 200), and concretely after a join and 201 sends
the store holds exactly 200 messages, the first message's id (1) is no longer
found, and both a React and a MarkSeen on that evicted id are silent no-ops
(state unchanged, nothing emitted). -/
theorem c4_bounded_store :
    (∀ (st : ServerState) (sid : String) (now : Nat) (ev : InEvent),
      st.messages.length ≤ 200 →
      ((step sid now st ev).1).messages.length ≤ 200) ∧
    ((runEvents initState trCap).1.messages.length = 200 ∧
     findMsg ((runEvents initState trCap).1).messages 1 = none ∧
     step "s2" 999 ((runEvents initState trCap).1) (.messageReaction 1 "x") =
       ((runEvents initState trCap).1, []) ∧
     step "s1" 999 ((runEvents initState trCap).1) (.messageSeen 1) =
       ((runEvents initState trCap).1, [])) := by
  constructor
  · intro st sid now ev h
    cases ev with
    | userJoin username room => simpa [step] using h
    | sendMessage data =>
        cases hu : alookup st.users sid with
        | none => simpa [step, hu] using h
        | some user =>
            simp only [step, hu]
            by_cases hlen :
                (st.messages ++ [mkSendMsg sid now user data]).length > 200
            · rw [if_pos hlen]
              rw [List.length_tail]
              simp only [List.length_append, List.length_singleton]
              omega
            · rw [if_neg hlen]
              simp only [List.length_append, List.length_singleton] at hlen ⊢
              omega
    | privateMessage data => simpa [step] using h
    | typing b => cases hu : alookup st.users sid <;> simpa [step, hu] using h
    | messageReaction mi em =>
        cases hf : findMsg st.messages mi with
        | none => simpa [step, hf] using h
        | some m => simpa [step, hf, updateFirst_length] using h
    | messageSeen mi =>
        cases hu : alookup st.users sid with
        | none => cases hf : findMsg st.messages mi <;> simpa [step, hu, hf] using h
        | some u =>
            cases hf : findMsg st.messages mi with
            | none => simpa [step, hu, hf] using h
            | some m =>
                by_cases hin : u.username ∈ m.seenBy
                · simpa [step, hu, hf, hin] using h
                · simpa [step, hu, hf, hin, updateFirst_length] using h
    | disconnect => cases hu : alookup st.users sid <;> simpa [step, hu] using h
  · set_option maxRecDepth 100000 in decide

/-- Witness for the bound-preservation part of c4_bounded_store at a concrete
state and event. -/
theorem c4_bounded_store_witness :
    initState.messages.length ≤ 200 ∧
    ((step "s1" 0 initState (.userJoin "a" "General")).1).messages.length ≤ 200 :=
  ⟨by decide,
   c4_bounded_store.1 initState "s1" 0 (.userJoin "a" "General") (by decide)⟩

end Mitiri
